import Mathlib

/-!
Verification of the chainer_extensions repository: a shallow embedding of the
three trainer extensions (LogReport, ParameterStatisticsX, graphviz_dot) and
proofs about their behaviour.

Python strings and file contents are modelled as `List Char` (all data written
by this code is plain text, one byte per character).  Numeric metric values are
modelled as `ℚ`; the exact decimal rendering performed by Python's `str` /
`json.dumps` is abstracted into an opaque token, since no claim depends on the
digits of a float.  External collaborators (the chainer `DictSummary`, the
interval trigger, the serializer, `subprocess.call`) are modelled explicitly
where a claim depends on them.
-/

namespace ChainerExt

/-! Character-list utilities mirroring the Python string operations used by
the source: `'\n'.join`, `str.split('\n')`, `','.join`. -/

/-- Model of Python `sep.join(lines)` for a one-or-more-character separator. -/
def joinSep (sep : List Char) : List (List Char) → List Char
  | [] => []
  | [l] => l
  | l :: ls => l ++ sep ++ joinSep sep ls

/-- Model of Python `s.split(sep)` for a single-character separator. -/
def splitOnC (sep : Char) : List Char → List (List Char)
  | [] => [[]]
  | c :: cs =>
    if c = sep then [] :: splitOnC sep cs
    else
      match splitOnC sep cs with
      | [] => [[c]]
      | l :: ls => (c :: l) :: ls

/-- Model of Python `' ' * n`. -/
def spaces (n : Nat) : List Char := List.replicate n ' '

theorem splitOnC_ne_nil (sep : Char) (s : List Char) : splitOnC sep s ≠ [] := by
  induction s with
  | nil => simp [splitOnC]
  | cons c cs ih =>
    simp only [splitOnC]
    split
    · simp
    · cases h : splitOnC sep cs with
      | nil => simp
      | cons l ls => simp

theorem splitOnC_free (sep : Char) (l : List Char) (h : sep ∉ l) :
    splitOnC sep l = [l] := by
  induction l with
  | nil => rfl
  | cons c cs ih =>
    simp only [List.mem_cons, not_or] at h
    obtain ⟨h1, h2⟩ := h
    have hc : ¬ c = sep := fun hcs => h1 hcs.symm
    simp only [splitOnC, if_neg hc, ih h2]

theorem splitOnC_append_free (sep : Char) (l s : List Char) (h : sep ∉ l) :
    splitOnC sep (l ++ s) = (l ++ (splitOnC sep s).headI) :: (splitOnC sep s).tail := by
  induction l with
  | nil =>
    cases hs : splitOnC sep s with
    | nil => exact absurd hs (splitOnC_ne_nil sep s)
    | cons x xs => simp [hs]
  | cons c cs ih =>
    simp only [List.mem_cons, not_or] at h
    obtain ⟨h1, h2⟩ := h
    have hc : ¬ c = sep := fun hcs => h1 hcs.symm
    simp only [List.cons_append, splitOnC, if_neg hc, List.append_eq, ih h2]

theorem splitOnC_cons_self (sep : Char) (s : List Char) :
    splitOnC sep (sep :: s) = [] :: splitOnC sep s := by
  simp [splitOnC]

theorem splitOnC_joinSep (sep : Char) (ls : List (List Char)) (hne : ls ≠ [])
    (hfree : ∀ l ∈ ls, sep ∉ l) : splitOnC sep (joinSep [sep] ls) = ls := by
  induction ls with
  | nil => exact absurd rfl hne
  | cons l ls ih =>
    cases ls with
    | nil => exact splitOnC_free sep l (hfree l (List.mem_cons_self l []))
    | cons l2 ls2 =>
      have hj : joinSep [sep] (l :: l2 :: ls2) = l ++ (sep :: joinSep [sep] (l2 :: ls2)) := by
        simp [joinSep]
      rw [hj, splitOnC_append_free sep l _ (hfree l (List.mem_cons_self l _)),
        splitOnC_cons_self,
        ih (by simp) (fun x hx => hfree x (List.mem_cons_of_mem l hx))]
      simp

theorem joinSep_append_single (sep : List Char) (ls : List (List Char)) (x : List Char)
    (hne : ls ≠ []) : joinSep sep (ls ++ [x]) = joinSep sep ls ++ sep ++ x := by
  induction ls with
  | nil => exact absurd rfl hne
  | cons l ls ih =>
    cases ls with
    | nil => simp [joinSep]
    | cons l2 ls2 =>
      have h1 : joinSep sep ((l :: l2 :: ls2) ++ [x])
          = l ++ sep ++ joinSep sep ((l2 :: ls2) ++ [x]) := by
        simp [joinSep]
      rw [h1, ih (by simp)]
      simp [joinSep, List.append_assoc]

theorem not_mem_joinSep (c : Char) (sep : List Char) (ls : List (List Char))
    (hls : ∀ l ∈ ls, c ∉ l) (hsep : c ∉ sep) : c ∉ joinSep sep ls := by
  induction ls with
  | nil => simp [joinSep]
  | cons l ls ih =>
    cases ls with
    | nil => exact hls l (List.mem_cons_self l [])
    | cons l2 ls2 =>
      have hj : joinSep sep (l :: l2 :: ls2) = l ++ sep ++ joinSep sep (l2 :: ls2) := by
        simp [joinSep]
      rw [hj]
      simp only [List.mem_append, not_or]
      exact ⟨⟨hls l (List.mem_cons_self l _), hsep⟩,
        ih (fun x hx => hls x (List.mem_cons_of_mem l hx))⟩

theorem dropLast2_append (l : List Char) (a b : Char) :
    (l ++ [a, b]).dropLast.dropLast = l := by
  have h : l ++ [a, b] = (l ++ [a]) ++ [b] := by simp
  rw [h, List.dropLast_concat, List.dropLast_concat]

/-! Model of `LogReport._write_json_log` (src/extensions/log_report.py, lines
78-104).  A flush entry is a flat JSON object; its keys are strings and its
values are pre-rendered numeric tokens (the digits `json.dumps` would emit). -/

/-- A JSON log entry: insertion-ordered keys with pre-rendered value tokens. -/
abbrev JsonEntry := List (String × String)

/-- Model of the quoted key `"k"` as rendered by `json.dumps` (metric names are
plain identifiers, so no escaping occurs). -/
def jsonQuote (s : String) : List Char := '"' :: s.data ++ ['"']

/-- One member line of a dumped object, before the trailing comma. -/
def objRow (kv : String × String) : List Char :=
  spaces 4 ++ jsonQuote kv.1 ++ [':', ' '] ++ kv.2.data

/-- The member lines of a dumped object: every line but the last gets a
trailing comma, as `json.dumps(d, indent=4)` does. -/
def objRows : JsonEntry → List (List Char)
  | [] => []
  | [kv] => [objRow kv]
  | kv :: rest => (objRow kv ++ [',']) :: objRows rest

/-- The lines of `json.dumps(entry, indent=4)` for a flat object. -/
def pyJsonDumpsObjLines (e : JsonEntry) : List (List Char) :=
  match e with
  | [] => [['{', '}']]
  | _ => ['{'] :: objRows e ++ [['}']]

/-- Model of `json.dumps(entry, indent=4)` for a flat object. -/
def pyJsonDumpsObj (e : JsonEntry) : List Char :=
  joinSep ['\n'] (pyJsonDumpsObjLines e)

/-- The source indents every line of the dumped entry by four spaces:
`[' '*indent + x for x in new_ending.split('\n')]` joined back with
newlines. -/
def indentBlock (s : List Char) : List Char :=
  joinSep ['\n'] ((splitOnC '\n' s).map (fun x => spaces 4 ++ x))

/-- The four-space-indented block of a dumped entry, as it appears inside the
log array. -/
def entryBlock (e : JsonEntry) : List Char :=
  joinSep ['\n'] ((pyJsonDumpsObjLines e).map (fun x => spaces 4 ++ x))

/-- Model of `LogReport._write_json_log` acting on the current file contents:
an empty file receives a fresh one-element array; otherwise the file is
truncated by its last two bytes (`fp.seek(-2, 2); fp.truncate()`) and
`',\n' + indented entry + '\n]'` is appended. -/
def writeJsonLog (file : List Char) (e : JsonEntry) : List Char :=
  if file = [] then
    '[' :: '\n' :: indentBlock (pyJsonDumpsObj e) ++ ['\n', ']']
  else
    file.dropLast.dropLast ++ (',' :: '\n' :: indentBlock (pyJsonDumpsObj e) ++ ['\n', ']'])

/-- The JSON log file produced by flushing `entries` in order onto an
initially empty file. -/
def jsonLogFile (entries : List JsonEntry) : List Char :=
  entries.foldl writeJsonLog []

/-- Reference rendering: `json.dumps(entries, indent=4)` applied to the whole
list of flushed objects at once.  A file equal to this is a valid top-level
JSON array with exactly one object per flush. -/
def pyJsonDumpsArr (entries : List JsonEntry) : List Char :=
  match entries with
  | [] => ['[', ']']
  | _ => '[' :: '\n' :: joinSep [',', '\n'] (entries.map entryBlock) ++ ['\n', ']']

/-- An entry whose keys and value tokens contain no newline; every entry the
source writes (metric names and numeric renderings) satisfies this. -/
def PlainJsonEntry (e : JsonEntry) : Prop :=
  ∀ kv ∈ e, '\n' ∉ kv.1.data ∧ '\n' ∉ kv.2.data

instance (e : JsonEntry) : Decidable (PlainJsonEntry e) := by
  unfold PlainJsonEntry; infer_instance

theorem objRow_free (kv : String × String) (h1 : '\n' ∉ kv.1.data)
    (h2 : '\n' ∉ kv.2.data) : '\n' ∉ objRow kv := by
  intro hmem
  simp only [objRow, spaces, jsonQuote, List.cons_append, List.append_assoc,
    List.mem_append, List.mem_cons, List.mem_replicate] at hmem
  rcases hmem with h | h | h
  · exact absurd h.2 (by decide)
  · exact absurd h (by decide)
  · rcases h with h | h | h | h
    · exact h1 h
    · exact absurd h (by decide)
    · exact absurd h (by decide)
    · rcases h with h | h | h | h
      · exact absurd h (by decide)
      · simp at h
      · simp at h
      · exact h2 h

theorem objRows_free (e : JsonEntry) (hp : PlainJsonEntry e) :
    ∀ l ∈ objRows e, '\n' ∉ l := by
  induction e with
  | nil => simp [objRows]
  | cons kv rest ih =>
    cases rest with
    | nil =>
      intro l hl
      simp only [objRows, List.mem_singleton] at hl
      subst hl
      exact objRow_free kv (hp kv (List.mem_cons_self kv _)).1 (hp kv (List.mem_cons_self kv _)).2
    | cons kv2 rest2 =>
      intro l hl
      simp only [objRows, List.mem_cons] at hl
      rcases hl with h | h
      · subst h
        simp only [List.mem_append, not_or]
        refine ⟨objRow_free kv (hp kv (List.mem_cons_self kv _)).1
          (hp kv (List.mem_cons_self kv _)).2, by decide⟩
      · exact ih (fun x hx => hp x (List.mem_cons_of_mem kv hx)) l h

theorem pyJsonDumpsObjLines_ne_nil (e : JsonEntry) : pyJsonDumpsObjLines e ≠ [] := by
  cases e <;> simp [pyJsonDumpsObjLines]

theorem pyJsonDumpsObjLines_free (e : JsonEntry) (hp : PlainJsonEntry e) :
    ∀ l ∈ pyJsonDumpsObjLines e, '\n' ∉ l := by
  cases e with
  | nil => intro l hl; simp only [pyJsonDumpsObjLines, List.mem_singleton] at hl; subst hl; decide
  | cons kv rest =>
    intro l hl
    simp only [pyJsonDumpsObjLines, List.mem_cons, List.mem_append,
      List.mem_singleton] at hl
    rcases hl with (h | h) | h | h
    · subst h; decide
    · exact objRows_free _ hp l h
    · subst h; decide
    · simp at h

theorem indentBlock_entry (e : JsonEntry) (hp : PlainJsonEntry e) :
    indentBlock (pyJsonDumpsObj e) = entryBlock e := by
  unfold indentBlock pyJsonDumpsObj entryBlock
  rw [splitOnC_joinSep '\n' _ (pyJsonDumpsObjLines_ne_nil e) (pyJsonDumpsObjLines_free e hp)]

theorem pyJsonDumpsArr_cons (e : JsonEntry) (es : List JsonEntry) :
    pyJsonDumpsArr (e :: es)
      = '[' :: '\n' :: joinSep [',', '\n'] ((e :: es).map entryBlock) ++ ['\n', ']'] := by
  rfl

theorem writeJsonLog_step (es : List JsonEntry) (e : JsonEntry) (hne : es ≠ [])
    (hp : PlainJsonEntry e) :
    writeJsonLog (pyJsonDumpsArr es) e = pyJsonDumpsArr (es ++ [e]) := by
  obtain ⟨e0, es0, rfl⟩ : ∃ h t, es = h :: t := by
    cases es with
    | nil => exact absurd rfl hne
    | cons h t => exact ⟨h, t, rfl⟩
  rw [pyJsonDumpsArr_cons]
  have hfile : ('[' :: '\n' :: joinSep [',', '\n'] ((e0 :: es0).map entryBlock) ++ ['\n', ']'])
      = ('[' :: '\n' :: joinSep [',', '\n'] ((e0 :: es0).map entryBlock)) ++ ['\n', ']'] := by
    simp
  rw [writeJsonLog, if_neg (by simp), hfile, dropLast2_append, indentBlock_entry e hp]
  have harr : pyJsonDumpsArr ((e0 :: es0) ++ [e])
      = '[' :: '\n' :: joinSep [',', '\n'] (((e0 :: es0) ++ [e]).map entryBlock) ++ ['\n', ']'] := by
    rfl
  rw [harr, List.map_append, show List.map entryBlock [e] = [entryBlock e] from rfl,
    joinSep_append_single _ _ _ (by simp)]
  simp [List.append_assoc]

theorem jsonLogFile_append (es : List JsonEntry) (e : JsonEntry) :
    jsonLogFile (es ++ [e]) = writeJsonLog (jsonLogFile es) e := by
  simp [jsonLogFile]

theorem jsonLogFile_eq_dump (es : List JsonEntry) (hne : es ≠ [])
    (hp : ∀ x ∈ es, PlainJsonEntry x) : jsonLogFile es = pyJsonDumpsArr es := by
  induction es using List.reverseRecOn with
  | nil => exact absurd rfl hne
  | append_singleton es e ih =>
    rw [jsonLogFile_append]
    cases es with
    | nil =>
      rw [show jsonLogFile [] = [] from rfl, writeJsonLog, if_pos rfl,
        indentBlock_entry e (hp e (by simp))]
      rfl
    | cons e0 es0 =>
      rw [ih (by simp) (fun x hx => hp x (List.mem_append_left _ hx)),
        writeJsonLog_step _ _ (by simp) (hp e (List.mem_append_right _ (by simp)))]

/-- C1: after every flush performed by LogReport, the JSON log file equals the
whole-array JSON dump of all flushed objects so far (hence it is a valid
top-level JSON array with exactly one object per flush); the file always ends
in the two characters newline-bracket, and a further flush rewrites nothing:
it drops exactly those last two characters and appends the new indented entry
followed by a new closing bracket. -/
theorem logReport_json_incremental_append (es : List JsonEntry) (e : JsonEntry)
    (hne : es ≠ []) (hp : ∀ x ∈ es, PlainJsonEntry x) (hpe : PlainJsonEntry e) :
    jsonLogFile es = pyJsonDumpsArr es ∧
    (∃ body, jsonLogFile es = body ++ ['\n', ']']) ∧
    writeJsonLog (jsonLogFile es) e
      = (jsonLogFile es).dropLast.dropLast ++ (',' :: '\n' :: entryBlock e ++ ['\n', ']']) := by
  have hdump := jsonLogFile_eq_dump es hne hp
  obtain ⟨e0, es0, rfl⟩ : ∃ h t, es = h :: t := by
    cases es with
    | nil => exact absurd rfl hne
    | cons h t => exact ⟨h, t, rfl⟩
  have hform : jsonLogFile (e0 :: es0)
      = ('[' :: '\n' :: joinSep [',', '\n'] ((e0 :: es0).map entryBlock)) ++ ['\n', ']'] := by
    rw [hdump, pyJsonDumpsArr_cons]
  refine ⟨hdump, ⟨_, hform⟩, ?_⟩
  have hne2 : ¬ jsonLogFile (e0 :: es0) = [] := by rw [hform]; simp
  rw [writeJsonLog, if_neg hne2, indentBlock_entry e hpe]

/-- Concrete entries used to instantiate the C1 theorem. -/
def jsonDemoEntries : List JsonEntry := [[("a", "1")], [("b", "2"), ("c", "3")]]

/-- Witness for C1 at concrete input: two flushed entries. -/
theorem logReport_json_incremental_append_witness :
    jsonLogFile jsonDemoEntries = pyJsonDumpsArr jsonDemoEntries :=
  (logReport_json_incremental_append jsonDemoEntries [("d", "4")]
    (by decide) (by decide) (by decide)).1

/-! Model of the CSV log written by `LogReport` (src/extensions/log_report.py):
the header written at initialization, line 147-148, and the data rows written
by `_update`, lines 110-112.  Data values are pre-rendered `str(...)`
tokens. -/

/-- One CSV field of a data row:
`str(data[h]) if h in data.keys() else ','.join(' ')` — note that
`','.join(' ')` is the one-character string of a single space. -/
def csvField (data : List (String × String)) (h : String) : List Char :=
  match data.lookup h with
  | some v => v.data
  | none => [' ']

/-- One CSV data row as appended by `_update`: the fields for each header key
joined with commas, plus the trailing newline. -/
def csvRowChars (ks : List String) (data : List (String × String)) : List Char :=
  joinSep [','] (ks.map (csvField data)) ++ ['\n']

/-- The CSV header line: `','.join(self._keys) + '\n'`. -/
def csvHeaderLine (ks : List String) : List Char :=
  joinSep [','] (ks.map String.data) ++ ['\n']

/-- The CSV file produced by the header write followed by one `_update` call
per flush. -/
def csvFileContents (ks : List String) (entries : List (List (String × String))) : List Char :=
  entries.foldl (fun f e => f ++ csvRowChars ks e) (csvHeaderLine ks)

theorem lookup_mem {β : Type} (k : String) (v : β) :
    ∀ l : List (String × β), l.lookup k = some v → (k, v) ∈ l := by
  intro l
  induction l with
  | nil => intro h; simp [List.lookup] at h
  | cons kv rest ih =>
    intro h
    obtain ⟨a, b⟩ := kv
    cases hb : k == a with
    | true =>
      simp only [List.lookup, hb] at h
      cases h
      exact (eq_of_beq hb) ▸ List.mem_cons_self _ _
    | false =>
      simp only [List.lookup, hb] at h
      exact List.mem_cons_of_mem _ (ih h)

theorem csvField_free (e : List (String × String)) (k : String)
    (hv : ∀ kv ∈ e, ',' ∉ kv.2.data ∧ '\n' ∉ kv.2.data) :
    ',' ∉ csvField e k ∧ '\n' ∉ csvField e k := by
  unfold csvField
  cases hl : e.lookup k with
  | none => exact ⟨by decide, by decide⟩
  | some v => exact (hv (k, v) (lookup_mem k v e hl))

theorem csvFileContents_rows (ks : List String) :
    ∀ (entries : List (List (String × String))) (init : List Char),
      entries.foldl (fun f e => f ++ csvRowChars ks e) init
        = init ++ (entries.map (csvRowChars ks)).flatten := by
  intro entries
  induction entries with
  | nil => intro init; simp
  | cons e rest ih => intro init; simp [ih, List.append_assoc]

/-- C2: the CSV file is the header line followed by exactly one data row per
flush; the header is the metric keys joined by commas; splitting any data row
on commas yields exactly one field per header key, in header order; and a data
row contains no interior newline (it is a single row). -/
theorem logReport_csv_header_rows (ks : List String)
    (entries : List (List (String × String)))
    (hks : ks ≠ [])
    (hkfree : ∀ k ∈ ks, ',' ∉ k.data ∧ '\n' ∉ k.data)
    (hvfree : ∀ e ∈ entries, ∀ kv ∈ e, ',' ∉ kv.2.data ∧ '\n' ∉ kv.2.data) :
    csvFileContents ks entries = csvHeaderLine ks ++ (entries.map (csvRowChars ks)).flatten ∧
    splitOnC ',' (csvHeaderLine ks).dropLast = ks.map String.data ∧
    (∀ e ∈ entries,
      splitOnC ',' (csvRowChars ks e).dropLast = ks.map (csvField e) ∧
      '\n' ∉ (csvRowChars ks e).dropLast) := by
  refine ⟨csvFileContents_rows ks entries (csvHeaderLine ks), ?_, ?_⟩
  · have hd : (csvHeaderLine ks).dropLast = joinSep [','] (ks.map String.data) := by
      unfold csvHeaderLine
      rw [show ((['\n'] : List Char) = ['\n']) from rfl]
      have : joinSep [','] (ks.map String.data) ++ ['\n']
          = joinSep [','] (ks.map String.data) ++ ['\n'] := rfl
      rw [show joinSep [','] (ks.map String.data) ++ ['\n']
          = joinSep [','] (ks.map String.data) ++ ['\n'] from rfl]
      exact List.dropLast_concat
    rw [hd]
    refine splitOnC_joinSep ',' _ (by simpa using hks) ?_
    intro l hl
    obtain ⟨k, hk, rfl⟩ := List.mem_map.mp hl
    exact (hkfree k hk).1
  · intro e he
    have hrow : (csvRowChars ks e).dropLast = joinSep [','] (ks.map (csvField e)) := by
      unfold csvRowChars
      exact List.dropLast_concat
    constructor
    · rw [hrow]
      refine splitOnC_joinSep ',' _ (by simpa using hks) ?_
      intro l hl
      obtain ⟨k, hk, rfl⟩ := List.mem_map.mp hl
      exact (csvField_free e k (hvfree e he)).1
    · rw [hrow]
      refine not_mem_joinSep '\n' [','] _ ?_ (by decide)
      intro l hl
      obtain ⟨k, hk, rfl⟩ := List.mem_map.mp hl
      exact (csvField_free e k (hvfree e he)).2

/-- Witness for C2 at concrete input. -/
theorem logReport_csv_header_rows_witness :
    csvFileContents ["epoch", "iteration", "elapsed_time"] [[("epoch", "1")]]
      = csvHeaderLine ["epoch", "iteration", "elapsed_time"]
        ++ ([[("epoch", "1")]].map (csvRowChars ["epoch", "iteration", "elapsed_time"])).flatten :=
  (logReport_csv_header_rows ["epoch", "iteration", "elapsed_time"] [[("epoch", "1")]]
    (by decide) (by decide) (by decide)).1

/-! Model of the `LogReport` extension as a state machine
(src/extensions/log_report.py).  The chainer `DictSummary` collaborator is
modelled by the per-key observation count and running sum, which is the state
its `compute_mean` (the only query the source performs) depends on.  The
stateful interval trigger `self._trigger` is an external chainer object, so
its verdict for each call is supplied as a field of the trainer view. -/

/-- Model of `chainer.reporter.DictSummary`, restricted to the state that
`add` and `compute_mean` use: for each key, in insertion order, the number of
added observations and their running sum. -/
structure DictSummary where
  summaries : List (String × (Nat × ℚ))
deriving DecidableEq, Repr

/-- A fresh summary, as made by `LogReport._init_summary`. -/
def DictSummary.empty : DictSummary := ⟨[]⟩

/-- Record a single scalar observation under key `k`. -/
def DictSummary.addOne (s : DictSummary) (k : String) (x : ℚ) : DictSummary :=
  if (s.summaries.lookup k).isSome then
    ⟨s.summaries.map (fun kv => if kv.1 = k then (k, (kv.2.1 + 1, kv.2.2 + x)) else kv)⟩
  else
    ⟨s.summaries ++ [(k, (1, x))]⟩

/-- Model of `DictSummary.add`: record every scalar of a dict observation. -/
def DictSummary.add (s : DictSummary) (d : List (String × ℚ)) : DictSummary :=
  d.foldl (fun acc kv => acc.addOne kv.1 kv.2) s

/-- Model of `DictSummary.compute_mean`: per-key mean of the added values. -/
def DictSummary.computeMean (s : DictSummary) : List (String × ℚ) :=
  s.summaries.map (fun kv => (kv.1, kv.2.2 / (kv.2.1 : ℚ)))

/-- Python dict item assignment `d[k] = v` on an insertion-ordered
association list: an existing key keeps its position, a new key is appended. -/
def dictSet {β : Type} (d : List (String × β)) (k : String) (v : β) : List (String × β) :=
  if (d.lookup k).isSome then
    d.map (fun kv => if kv.1 = k then (k, v) else kv)
  else
    d ++ [(k, v)]

/-- The view of the trainer that one `LogReport.__call__` reads:
`trainer.observation`, `updater.epoch`, `updater.iteration`,
`trainer.elapsed_time`, `trainer.out`, and the verdict of the external
interval trigger `self._trigger(trainer)` for this call. -/
structure Trainer where
  observation : List (String × ℚ)
  epoch : Nat
  iteration : Nat
  elapsedTime : ℚ
  out : List Char
  emit : Bool
deriving DecidableEq, Repr

/-- The mutable attributes of a `LogReport` instance, together with the
contents of the two log files it writes during the run. -/
structure LogReportState where
  keys : Option (List String)
  csvName : List Char
  jsonName : List Char
  log : List (List (String × ℚ))
  summary : DictSummary
  isInit : Bool
  csvFile : List Char
  jsonFile : List Char
deriving DecidableEq, Repr

/-- Opaque rendering of a metric value used where the source calls
`str(...)` or lets `json.dumps` render a float; the digits themselves are
outside the model. -/
def qstrS (q : ℚ) : String := toString q.num ++ "/" ++ toString q.den

/-- Model of `os.path.join(out, name)` for POSIX paths. -/
def pathJoin (a b : List Char) : List Char :=
  if b.head? = some '/' then b
  else if a = [] ∨ a.getLast? = some '/' then a ++ b
  else a ++ '/' :: b

/-- The constant first three keys set by the initialization branch. -/
def baseKeys : List String := ["epoch", "iteration", "elapsed_time"]

/-- Stable insertion of user keys after the base keys:
`for k in keys: if k not in self._keys: self._keys.append(k)`. -/
def dedupAppend (base ks : List String) : List String :=
  ks.foldl (fun acc k => if k ∈ acc then acc else acc ++ [k]) base

/-- Insertion sort used to model Python `sorted` on strings. -/
def insertSorted (x : String) : List String → List String
  | [] => [x]
  | y :: ys => if x < y then x :: y :: ys else y :: insertSorted x ys

/-- Model of Python `sorted` on a list of strings. -/
def sortStrings (l : List String) : List String := l.foldr insertSorted []

/-- Model of `LogReport._init_trigger`: reads the `_is_initialized` flag,
returns whether to fire, and leaves the flag set. -/
def lrInitTrigger (isInit : Bool) : Bool × Bool :=
  if isInit then (false, isInit) else (true, true)

/-- The accumulation step at the top of `__call__`: add the whole observation
when no key list was supplied, else only the listed keys present in the
observation. -/
def lrAccum (keys : Option (List String)) (summary : DictSummary)
    (obs : List (String × ℚ)) : DictSummary :=
  match keys with
  | none => summary.add obs
  | some ks => summary.add (ks.filterMap (fun k => (obs.lookup k).map (fun v => (k, v))))

/-- The flushed stats dict: `compute_mean` of the summary with `epoch`,
`iteration` and `elapsed_time` set afterwards. -/
def lrStats (summary : DictSummary) (tr : Trainer) : List (String × ℚ) :=
  dictSet (dictSet (dictSet summary.computeMean "epoch" (tr.epoch : ℚ))
    "iteration" (tr.iteration : ℚ)) "elapsed_time" tr.elapsedTime

/-- Model of `LogReport._update`: append one CSV row and one JSON entry for
the dict `d`; the JSON entry has one member per key of `ks`, null when the
key is absent from `d`. -/
def lrUpdate (ks : List String) (st : LogReportState)
    (d : List (String × ℚ)) : LogReportState :=
  { st with
    csvFile := st.csvFile ++ csvRowChars ks (d.map (fun kv => (kv.1, qstrS kv.2))),
    jsonFile := writeJsonLog st.jsonFile (ks.map (fun k =>
      (k, match d.lookup k with | some v => qstrS v | none => "null"))) }

/-- The initialization branch of `__call__` (lines 130-152): fix the key
list, join the log file names under `trainer.out`, write the CSV header
(mode `w+` truncates), and replay the deserialized `self._log` through
`_update`. -/
def lrInitBranch (st : LogReportState) (tr : Trainer) : LogReportState :=
  let newKeys :=
    match st.keys with
    | none => baseKeys ++ sortStrings (st.summary.summaries.map Prod.fst)
    | some ks => dedupAppend baseKeys ks
  let st1 := { st with
    keys := some newKeys,
    csvName := pathJoin tr.out st.csvName,
    jsonName := pathJoin tr.out st.jsonName,
    csvFile := csvHeaderLine newKeys }
  st1.log.foldl (fun s d => lrUpdate newKeys s d) st1

/-- The emission branch of `__call__` (lines 155-174): compute the stats
dict, append it to `self._log`, write it through `_update`, and reset the
summary to a fresh `DictSummary`. -/
def lrEmitBranch (st : LogReportState) (tr : Trainer) : LogReportState :=
  let stats := lrStats st.summary tr
  let st1 := { st with log := st.log ++ [stats] }
  let st2 := lrUpdate (st1.keys.getD []) st1 stats
  { st2 with summary := DictSummary.empty }

/-- Model of `LogReport.__call__`. -/
def logReportCall (st : LogReportState) (tr : Trainer) : LogReportState :=
  let st1 := { st with summary := lrAccum st.keys st.summary tr.observation }
  let fire := (lrInitTrigger st1.isInit).1
  let st2 := { st1 with isInit := (lrInitTrigger st1.isInit).2 }
  let st3 := if fire then lrInitBranch st2 tr else st2
  if tr.emit then lrEmitBranch st3 tr else st3

/-- A whole run: fold `__call__` over a sequence of trainer views. -/
def runLR (st : LogReportState) (trs : List Trainer) : LogReportState :=
  trs.foldl logReportCall st

/-- The summary after a call sequence, as a function of the key list and the
starting summary only. -/
def summaryTrace (keys : Option (List String)) : DictSummary → List Trainer → DictSummary
  | summary, [] => summary
  | summary, tr :: rest =>
    summaryTrace keys
      (if tr.emit then DictSummary.empty else lrAccum keys summary tr.observation) rest

/-- The stats dicts appended to `self._log` over a call sequence, as a
function of the key list and the starting summary only. -/
def logDelta (keys : Option (List String)) : DictSummary → List Trainer → List (List (String × ℚ))
  | _, [] => []
  | summary, tr :: rest =>
    (if tr.emit then [lrStats (lrAccum keys summary tr.observation) tr] else []) ++
      logDelta keys
        (if tr.emit then DictSummary.empty else lrAccum keys summary tr.observation) rest

theorem foldl_lrUpdate_frame (ks : List String) :
    ∀ (l : List (List (String × ℚ))) (st : LogReportState),
      (l.foldl (fun s d => lrUpdate ks s d) st).keys = st.keys ∧
      (l.foldl (fun s d => lrUpdate ks s d) st).log = st.log ∧
      (l.foldl (fun s d => lrUpdate ks s d) st).summary = st.summary ∧
      (l.foldl (fun s d => lrUpdate ks s d) st).isInit = st.isInit ∧
      (l.foldl (fun s d => lrUpdate ks s d) st).csvName = st.csvName ∧
      (l.foldl (fun s d => lrUpdate ks s d) st).jsonName = st.jsonName := by
  intro l
  induction l with
  | nil => intro st; simp
  | cons d rest ih => intro st; simpa [lrUpdate] using ih (lrUpdate ks st d)

theorem lrEmitBranch_summary (st : LogReportState) (tr : Trainer) :
    (lrEmitBranch st tr).summary = DictSummary.empty := by
  simp [lrEmitBranch, lrUpdate]

theorem lrEmitBranch_log (st : LogReportState) (tr : Trainer) :
    (lrEmitBranch st tr).log = st.log ++ [lrStats st.summary tr] := by
  simp [lrEmitBranch, lrUpdate]

theorem lrEmitBranch_keys (st : LogReportState) (tr : Trainer) :
    (lrEmitBranch st tr).keys = st.keys := by
  simp [lrEmitBranch, lrUpdate]

theorem lrEmitBranch_isInit (st : LogReportState) (tr : Trainer) :
    (lrEmitBranch st tr).isInit = st.isInit := by
  simp [lrEmitBranch, lrUpdate]

theorem lrEmitBranch_csvFile (st : LogReportState) (tr : Trainer) :
    (lrEmitBranch st tr).csvFile = st.csvFile
      ++ csvRowChars (st.keys.getD [])
        ((lrStats st.summary tr).map (fun kv => (kv.1, qstrS kv.2))) := by
  simp [lrEmitBranch, lrUpdate]

theorem lrCall_initialized (s : LogReportState) (tr : Trainer) (h : s.isInit = true) :
    logReportCall s tr =
      if tr.emit then
        lrEmitBranch { s with summary := lrAccum s.keys s.summary tr.observation } tr
      else { s with summary := lrAccum s.keys s.summary tr.observation } := by
  cases s with
  | mk keys csvName jsonName log summary isInit csvFile jsonFile =>
    subst h
    simp [logReportCall, lrInitTrigger]

theorem lrCall_isInit (s : LogReportState) (tr : Trainer) :
    (logReportCall s tr).isInit = true := by
  cases s with
  | mk keys csvName jsonName log summary isInit csvFile jsonFile =>
    cases isInit with
    | true =>
      rw [lrCall_initialized _ tr rfl]
      cases tr.emit with
      | true => simp [lrEmitBranch_isInit]
      | false => simp
    | false =>
      show (if tr.emit then lrEmitBranch _ tr else _).isInit = true
      cases tr.emit with
      | true =>
        rw [if_pos rfl, lrEmitBranch_isInit]
        exact ((foldl_lrUpdate_frame _ _ _).2.2.2.1).trans rfl
      | false =>
        rw [if_neg (by simp)]
        exact ((foldl_lrUpdate_frame _ _ _).2.2.2.1).trans rfl

theorem runLR_char : ∀ (trs : List Trainer) (s : LogReportState), s.isInit = true →
    (runLR s trs).summary = summaryTrace s.keys s.summary trs ∧
    (runLR s trs).log = s.log ++ logDelta s.keys s.summary trs ∧
    (runLR s trs).keys = s.keys ∧
    (runLR s trs).isInit = true := by
  intro trs
  induction trs with
  | nil => intro s h; simp [runLR, summaryTrace, logDelta, h]
  | cons tr rest ih =>
    intro s h
    have hrun : runLR s (tr :: rest) = runLR (logReportCall s tr) rest := rfl
    have hcall := lrCall_initialized s tr h
    cases he : tr.emit with
    | false =>
      rw [if_neg (by simp [he])] at hcall
      obtain ⟨h1, h2, h3, h4⟩ := ih { s with summary := lrAccum s.keys s.summary tr.observation } h
      rw [hrun, hcall]
      refine ⟨?_, ?_, h3, h4⟩
      · rw [h1]; simp [summaryTrace, he]
      · rw [h2]; simp [logDelta, he]
    | true =>
      rw [if_pos he] at hcall
      set sacc : LogReportState := { s with summary := lrAccum s.keys s.summary tr.observation }
      have hfields : (lrEmitBranch sacc tr).summary = DictSummary.empty ∧
          (lrEmitBranch sacc tr).log = s.log ++ [lrStats (lrAccum s.keys s.summary tr.observation) tr] ∧
          (lrEmitBranch sacc tr).keys = s.keys ∧
          (lrEmitBranch sacc tr).isInit = true :=
        ⟨lrEmitBranch_summary _ _, lrEmitBranch_log _ _, lrEmitBranch_keys _ _,
          (lrEmitBranch_isInit _ _).trans h⟩
      obtain ⟨h1, h2, h3, h4⟩ := ih (lrEmitBranch sacc tr) hfields.2.2.2
      rw [hrun, hcall]
      refine ⟨?_, ?_, ?_, h4⟩
      · rw [h1, hfields.1, hfields.2.2.1]; simp [summaryTrace, he]
      · rw [h2, hfields.2.1, hfields.1, hfields.2.2.1]
        simp [logDelta, he, List.append_assoc]
      · rw [h3, hfields.2.2.1]

theorem drop_log_delta (l d : List (List (String × ℚ))) (x : List (String × ℚ)) :
    ((l ++ [x]) ++ d).drop (l.length + 1) = d := by
  have h : (l ++ [x]).length = l.length + 1 := by simp
  rw [← h, List.drop_left]

theorem lrCall_emit_summary (s : LogReportState) (tr : Trainer) (hemit : tr.emit = true) :
    (logReportCall s tr).summary = DictSummary.empty := by
  cases s with
  | mk keys csvName jsonName log summary isInit csvFile jsonFile =>
    cases isInit with
    | true =>
      rw [lrCall_initialized _ tr rfl, if_pos hemit, lrEmitBranch_summary]
    | false =>
      show (if tr.emit then lrEmitBranch _ tr else _).summary = DictSummary.empty
      rw [if_pos hemit, lrEmitBranch_summary]

/-- Amended C3: every call on which the emit trigger fires, whether or not it
is the instance's first, resets the accumulated summary to a fresh empty
`DictSummary`; and for an emitting call on an already-initialized instance,
the stats dicts appended by every later flush are independent of whatever had
been accumulated before that flush.  (On the instance's first call with
`keys=None` the pre-flush observations determine the fixed key list, which
filters all later accumulation, so there they do influence later flushes; see
the counterexample.) -/
theorem logReport_summary_reset_after_flush (s : LogReportState) (a b : DictSummary)
    (tr : Trainer) (rest : List Trainer)
    (hinit : s.isInit = true) (hemit : tr.emit = true) :
    (∀ (s2 : LogReportState) (tr2 : Trainer), tr2.emit = true →
      (logReportCall s2 tr2).summary = DictSummary.empty) ∧
    (runLR (logReportCall { s with summary := a } tr) rest).log.drop (s.log.length + 1)
      = (runLR (logReportCall { s with summary := b } tr) rest).log.drop (s.log.length + 1) := by
  have hca := lrCall_initialized { s with summary := a } tr hinit
  have hcb := lrCall_initialized { s with summary := b } tr hinit
  rw [if_pos hemit] at hca hcb
  constructor
  · exact fun s2 tr2 h2 => lrCall_emit_summary s2 tr2 h2
  · have hfa : (logReportCall { s with summary := a } tr).isInit = true := lrCall_isInit _ _
    have hfb : (logReportCall { s with summary := b } tr).isInit = true := lrCall_isInit _ _
    obtain ⟨-, hla, -, -⟩ := runLR_char rest _ hfa
    obtain ⟨-, hlb, -, -⟩ := runLR_char rest _ hfb
    rw [hla, hlb]
    simp only [hca, hcb, lrEmitBranch_log, lrEmitBranch_keys, lrEmitBranch_summary]
    rw [drop_log_delta, drop_log_delta]

/-- Witness state and trainer for the C3 theorem. -/
def c3State : LogReportState :=
  { keys := some ["epoch", "iteration", "elapsed_time", "loss"],
    csvName := [], jsonName := [], log := [], summary := DictSummary.empty,
    isInit := true, csvFile := [], jsonFile := [] }

/-- Witness trainer view for the C3 theorem. -/
def c3Trainer : Trainer :=
  { observation := [("loss", 2)], epoch := 1, iteration := 3, elapsedTime := 7,
    out := [], emit := true }

/-- Witness for the amended C3 theorem at a concrete emitting call. -/
theorem logReport_summary_reset_after_flush_witness :
    (logReportCall { c3State with summary := DictSummary.addOne DictSummary.empty "loss" 9 }
      c3Trainer).summary = DictSummary.empty :=
  (logReport_summary_reset_after_flush c3State
    (DictSummary.addOne DictSummary.empty "loss" 9) DictSummary.empty c3Trainer []
    rfl rfl).1
    { c3State with summary := DictSummary.addOne DictSummary.empty "loss" 9 } c3Trainer rfl

/-- Fresh uninitialized LogReport state with `keys=None` whose summary
already holds a pre-flush observation named `loss`, for the C3
counterexample. -/
def preFlushState : LogReportState :=
  { keys := none, csvName := "log.csv".data, jsonName := "log".data, log := [],
    summary := DictSummary.addOne DictSummary.empty "loss" 9, isInit := false,
    csvFile := [], jsonFile := [] }

/-- The same state with nothing accumulated before the flush. -/
def preFlushStateEmpty : LogReportState := { preFlushState with summary := DictSummary.empty }

/-- The instance's first, emitting call (the flush under scrutiny). -/
def firstFlushTrainer : Trainer :=
  { observation := [], epoch := 1, iteration := 1, elapsedTime := 0,
    out := "out".data, emit := true }

/-- A later emitting call observing `loss`. -/
def laterFlushTrainer : Trainer :=
  { observation := [("loss", 2)], epoch := 1, iteration := 2, elapsedTime := 1,
    out := "out".data, emit := true }

/-- Counterexample to C3 as stated: two runs differing only in what was
accumulated before the first flush.  Both flushes reset the summary to a
fresh empty `DictSummary`, yet the stats dict appended by the next flush
differs between the runs: the pre-flush `loss` observation put `loss` into
the key list fixed at initialization, so the later flush reports `loss` in
one run and drops it in the other.  Observations accumulated before the
flush thus influence a later flush. -/
theorem logReport_preflush_influence_counterexample :
    (logReportCall preFlushState firstFlushTrainer).summary = DictSummary.empty ∧
    (logReportCall preFlushStateEmpty firstFlushTrainer).summary = DictSummary.empty ∧
    (runLR (logReportCall preFlushState firstFlushTrainer) [laterFlushTrainer]).log.drop 1
      ≠ (runLR (logReportCall preFlushStateEmpty firstFlushTrainer) [laterFlushTrainer]).log.drop 1 := by
  refine ⟨by decide, by decide, by decide⟩

/-- A non-emitting call on an initialized LogReport changes exactly one
attribute, the accumulated summary, to which the call's observation is
added; keys, log, file names and file contents are untouched. -/
theorem logReport_non_emit_frame (s : LogReportState) (tr : Trainer)
    (hinit : s.isInit = true) (hemit : tr.emit = false) :
    logReportCall s tr = { s with summary := lrAccum s.keys s.summary tr.observation } := by
  rw [lrCall_initialized s tr hinit, if_neg (by simp [hemit])]

/-- Concrete initialized state for the C8 counterexample. -/
def nonEmitState : LogReportState :=
  { keys := some ["epoch", "iteration", "elapsed_time", "loss"],
    csvName := [], jsonName := [], log := [], summary := DictSummary.empty,
    isInit := true, csvFile := [], jsonFile := [] }

/-- Concrete non-emitting trainer view for the C8 counterexample. -/
def nonEmitTrainer : Trainer :=
  { observation := [("loss", 2)], epoch := 0, iteration := 5, elapsedTime := 1,
    out := [], emit := false }

/-- Counterexample to C8: a call on which the emit trigger does not fire
still changes the observable state of LogReport (the observation is added to
the running summary). -/
theorem logReport_stateless_counterexample :
    logReportCall nonEmitState nonEmitTrainer ≠ nonEmitState := by decide

theorem dedupAppend_cons (base : List String) (k : String) (rest : List String) :
    dedupAppend base (k :: rest)
      = dedupAppend (if k ∈ base then base else base ++ [k]) rest := by
  simp [dedupAppend]

theorem dedupAppend_extends : ∀ (ks base : List String), ∃ e, dedupAppend base ks = base ++ e := by
  intro ks
  induction ks with
  | nil => intro base; exact ⟨[], by simp [dedupAppend]⟩
  | cons k rest ih =>
    intro base
    rw [dedupAppend_cons]
    by_cases hk : k ∈ base
    · rw [if_pos hk]; exact ih base
    · rw [if_neg hk]
      obtain ⟨e, he⟩ := ih (base ++ [k])
      exact ⟨[k] ++ e, by rw [he]; simp⟩

theorem dedupAppend_nodup : ∀ (ks base : List String), base.Nodup → (dedupAppend base ks).Nodup := by
  intro ks
  induction ks with
  | nil => intro base h; simpa [dedupAppend] using h
  | cons k rest ih =>
    intro base h
    rw [dedupAppend_cons]
    by_cases hk : k ∈ base
    · rw [if_pos hk]; exact ih base h
    · rw [if_neg hk]
      exact ih _ (by simp [List.nodup_append, h, hk])

theorem lrCall_first_keys (s : LogReportState) (tr : Trainer) (ks : List String)
    (h : s.isInit = false) (hk : s.keys = some ks) :
    (logReportCall s tr).keys = some (dedupAppend baseKeys ks) := by
  have hinit : ∀ st : LogReportState, st.keys = some ks →
      (lrInitBranch st tr).keys = some (dedupAppend baseKeys ks) := by
    intro st hst
    unfold lrInitBranch
    rw [(foldl_lrUpdate_frame _ _ _).1]
    simp [hst]
  cases s with
  | mk keys csvName jsonName log summary isInit csvFile jsonFile =>
    subst h
    cases hk
    cases he : tr.emit with
    | true => simp [logReportCall, lrInitTrigger, he, lrEmitBranch_keys, hinit]
    | false => simp [logReportCall, lrInitTrigger, he, hinit]

theorem lrCall_first_csv (s : LogReportState) (tr : Trainer) (ks : List String)
    (h : s.isInit = false) (hk : s.keys = some ks) (hlog : s.log = [])
    (hemit : tr.emit = false) :
    (logReportCall s tr).csvFile = csvHeaderLine (dedupAppend baseKeys ks) := by
  have hinitcsv : ∀ st : LogReportState, st.keys = some ks → st.log = [] →
      (lrInitBranch st tr).csvFile = csvHeaderLine (dedupAppend baseKeys ks) := by
    intro st h1 h2
    unfold lrInitBranch
    simp [h1, h2]
  cases s with
  | mk keys csvName jsonName log summary isInit csvFile jsonFile =>
    subst h
    cases hk
    simp only at hlog
    subst hlog
    simp [logReportCall, lrInitTrigger, hemit, hinitcsv]

/-- Amended C9: LogReport initializes exactly once, on the first invocation:
`_init_trigger` fires on the first call and on no later call, every call
leaves the instance initialized, initialized calls only ever append to the
CSV file (the header is never rewritten), and on the first call with a
user-supplied key list the key list is fixed to start with `epoch`,
`iteration`, `elapsed_time`, is duplicate-free, and the CSV header for it is
written.  (With `keys=None` the sorted observed keys are appended without
deduplication against the three defaults; see the counterexample.) -/
theorem logReport_init_once (s : LogReportState) (tr : Trainer)
    (h : s.isInit = false) :
    (lrInitTrigger s.isInit).1 = true ∧
    (∀ tr2 : Trainer, (logReportCall s tr2).isInit = true) ∧
    (∀ s2 : LogReportState, s2.isInit = true → (lrInitTrigger s2.isInit).1 = false) ∧
    (∀ (s2 : LogReportState) (tr2 : Trainer), s2.isInit = true →
      ∃ t, (logReportCall s2 tr2).csvFile = s2.csvFile ++ t) ∧
    (∀ ks, s.keys = some ks →
      (logReportCall s tr).keys = some (dedupAppend baseKeys ks) ∧
      (dedupAppend baseKeys ks).take 3 = baseKeys ∧
      (dedupAppend baseKeys ks).Nodup ∧
      (s.log = [] → tr.emit = false →
        (logReportCall s tr).csvFile = csvHeaderLine (dedupAppend baseKeys ks))) := by
  refine ⟨by rw [h]; rfl, fun tr2 => lrCall_isInit s tr2, fun s2 h2 => by rw [h2]; rfl,
    ?_, ?_⟩
  · intro s2 tr2 h2
    rw [lrCall_initialized s2 tr2 h2]
    cases he : tr2.emit with
    | true =>
      rw [if_pos rfl]
      exact ⟨_, lrEmitBranch_csvFile _ _⟩
    | false =>
      rw [if_neg (by simp)]
      exact ⟨[], by simp⟩
  · intro ks hk
    obtain ⟨e, he⟩ := dedupAppend_extends ks baseKeys
    refine ⟨lrCall_first_keys s tr ks h hk, ?_, dedupAppend_nodup ks baseKeys (by decide),
      fun hlog hemit => lrCall_first_csv s tr ks h hk hlog hemit⟩
    rw [he, show (3 : Nat) = baseKeys.length from rfl, List.take_left]

/-- Concrete fresh LogReport state for the C9 counterexample. -/
def freshState : LogReportState :=
  { keys := none, csvName := "log.csv".data, jsonName := "log".data,
    log := [], summary := DictSummary.empty, isInit := false,
    csvFile := [], jsonFile := [] }

/-- Concrete first call whose observation is itself named `epoch`. -/
def epochObsTrainer : Trainer :=
  { observation := [("epoch", 1)], epoch := 1, iteration := 1, elapsedTime := 0,
    out := "out".data, emit := false }

/-- Counterexample to C9 as stated: with `keys=None` and an observation
literally named `epoch`, the key list fixed by initialization contains a
duplicate. -/
theorem logReport_keys_dup_counterexample :
    ¬ ((logReportCall freshState epochObsTrainer).keys.getD []).Nodup := by decide

/-- Witness for the amended C9 theorem at a concrete input. -/
theorem logReport_init_once_witness :
    (lrInitTrigger freshState.isInit).1 = true :=
  (logReport_init_once freshState epochObsTrainer rfl).1

/-! Model of the `ParameterStatisticsX` extension
(src/extensions/parameter_statistics_x.py).  Parameter arrays are flat lists
of floats; a float is either NaN or a rational.  A statistic function maps a
flattened array to either a scalar or an array (numpy functions such as
`percentile` return arrays).  The tensorboardX `SummaryWriter` collaborator is
modelled by the lists of scalar and histogram records pushed to it. -/

/-- A float value: NaN or a numeric value. -/
inductive PFloat where
  | nan : PFloat
  | val : ℚ → PFloat
deriving DecidableEq, Repr

/-- The result of a statistic function: a scalar or a numpy array. -/
inductive StatResult where
  | scalar : PFloat → StatResult
  | array : List PFloat → StatResult
deriving DecidableEq, Repr

/-- One parameter of a link: its registered name (preceded by `/` as chainer
yields it from `namedparams`) and its flattened `data` and `grad` arrays. -/
structure PSParamEntry where
  name : String
  data : List PFloat
  grad : List PFloat

/-- One monitored link: its `name` attribute as rendered into the report key
(the string produced by `format`, so the text `None` when absent), and its
named parameters. -/
structure PSLink where
  name : String
  params : List PSParamEntry

/-- The constructor arguments of `ParameterStatisticsX` that `__call__`
reads. -/
structure PSConfig where
  links : List PSLink
  statistics : List (String × (List PFloat → StatResult))
  reportParams : Bool
  reportGrads : Bool
  pfx : Option String
  histogram : Bool
  skipNanParams : Bool

/-- Python truthiness of the prefix: `self._prefix + '/' if self._prefix
else ''` — both `None` and the empty string yield the empty string. -/
def pyTruthyPfx : Option String → String
  | none => ""
  | some p => if p = "" then "" else p ++ "/"

/-- The scalar report key template
`'{prefix}{link_name}{param_name}/{attr_name}/{function_name}'`. -/
def scalarReportKey (pfx : Option String)
    (linkName paramName attrName functionName : String) : String :=
  pyTruthyPfx pfx ++ linkName ++ paramName ++ "/" ++ attrName ++ "/" ++ functionName

/-- The histogram report key template
`'{prefix}{link_name}{param_name}/{attr_name}'`. -/
def histReportKey (pfx : Option String) (linkName paramName attrName : String) : String :=
  pyTruthyPfx pfx ++ linkName ++ paramName ++ "/" ++ attrName

/-- The attribute names iterated by `__call__`: `data` when parameters are
reported, then `grad` when gradients are. -/
def psAttrs (reportParams reportGrads : Bool) : List String :=
  (if reportParams then ["data"] else []) ++ (if reportGrads then ["grad"] else [])

/-- `getattr(param, attr_name).ravel()`. -/
def paramAttr (p : PSParamEntry) (attr : String) : List PFloat :=
  if attr = "data" then p.data else p.grad

/-- One iteration of the innermost loop body: a link, one of its parameters,
an attribute name, and one named statistic function. -/
structure PSUnit where
  linkName : String
  paramName : String
  arr : List PFloat
  attrName : String
  fnName : String
  fn : List PFloat → StatResult

/-- The loop iterations of `__call__` in execution order. -/
def psUnits (cfg : PSConfig) : List PSUnit :=
  cfg.links.flatMap (fun link =>
    link.params.flatMap (fun p =>
      (psAttrs cfg.reportParams cfg.reportGrads).flatMap (fun attr =>
        cfg.statistics.map (fun fs =>
          { linkName := link.name, paramName := p.name, arr := paramAttr p attr,
            attrName := attr, fnName := fs.1, fn := fs.2 }))))

/-- The scalar key for one loop iteration. -/
def psUnitKey (cfg : PSConfig) (u : PSUnit) : String :=
  scalarReportKey cfg.pfx u.linkName u.paramName u.attrName u.fnName

/-- The histogram key for one loop iteration. -/
def psUnitHistKey (cfg : PSConfig) (u : PSUnit) : String :=
  histReportKey cfg.pfx u.linkName u.paramName u.attrName

/-- Lines 91-96 of the source: when `skip_nan_params` is set and the array
contains a NaN the value is the NaN sentinel, otherwise the statistic
function is applied. -/
def psValue (skip : Bool) (f : List PFloat → StatResult) (params : List PFloat) : StatResult :=
  if skip = true ∧ PFloat.nan ∈ params then StatResult.scalar PFloat.nan else f params

/-- The value computed for one loop iteration. -/
def psUnitValue (cfg : PSConfig) (u : PSUnit) : StatResult :=
  psValue cfg.skipNanParams u.fn u.arr

/-- Lines 105-112 of the source: an array value of size greater than one is
stored element-wise under `'{key}/{i}'`; everything else is stored whole
under the key. -/
def psScalarUpdates (key : String) (value : StatResult) : List (String × StatResult) :=
  match value with
  | StatResult.array vs =>
    if 1 < vs.length then
      vs.enum.map (fun iv => (key ++ "/" ++ toString iv.1, StatResult.scalar iv.2))
    else [(key, value)]
  | StatResult.scalar _ => [(key, value)]

/-- All dict assignments performed on `statistics`, in loop order. -/
def psScalarUpdateList (cfg : PSConfig) : List (String × StatResult) :=
  (psUnits cfg).flatMap (fun u => psScalarUpdates (psUnitKey cfg u) (psUnitValue cfg u))

/-- The `statistics` dict at the end of the loops. -/
def psStatisticsDict (cfg : PSConfig) : List (String × StatResult) :=
  (psScalarUpdateList cfg).foldl (fun d kv => dictSet d kv.1 kv.2) []

/-- Everything pushed to the tensorboardX writer by one `__call__` whose
trigger fired: the histogram records pushed inside the loop (one per loop
iteration when histograms are enabled), then the scalar records pushed from
the `statistics` dict, each tagged with `trainer.updater.iteration`. -/
structure PSOutput where
  scalars : List (String × StatResult × Nat)
  histograms : List (String × List PFloat × Nat)

/-- Model of `ParameterStatisticsX.__call__` on a call whose trigger fired. -/
def psRun (cfg : PSConfig) (iteration : Nat) : PSOutput :=
  { scalars := (psStatisticsDict cfg).map (fun kv => (kv.1, kv.2, iteration)),
    histograms :=
      if cfg.histogram then
        (psUnits cfg).map (fun u => (psUnitHistKey cfg u, u.arr, iteration))
      else [] }

theorem dictSet_mem {β : Type} (d : List (String × β)) (k : String) (v : β)
    (kv : String × β) (h : kv ∈ dictSet d k v) : kv ∈ d ∨ kv = (k, v) := by
  unfold dictSet at h
  split at h
  · obtain ⟨a, ha, hae⟩ := List.mem_map.mp h
    by_cases hk : a.1 = k
    · right; rw [if_pos hk] at hae; exact hae.symm
    · left; rw [if_neg hk] at hae; exact hae ▸ ha
  · rcases List.mem_append.mp h with h | h
    · exact Or.inl h
    · exact Or.inr (List.mem_singleton.mp h)

theorem foldl_dictSet_mem {β : Type} :
    ∀ (l : List (String × β)) (d : List (String × β)) (kv : String × β),
      kv ∈ l.foldl (fun acc x => dictSet acc x.1 x.2) d → kv ∈ d ∨ kv ∈ l := by
  intro l
  induction l with
  | nil => intro d kv h; exact Or.inl h
  | cons x rest ih =>
    intro d kv h
    rcases ih (dictSet d x.1 x.2) kv h with h2 | h2
    · rcases dictSet_mem d x.1 x.2 kv h2 with h3 | h3
      · exact Or.inl h3
      · exact Or.inr (h3 ▸ List.mem_cons_self x rest)
    · exact Or.inr (List.mem_cons_of_mem x h2)

/-- C6: when `skip_nan_params` is set, every loop iteration whose flattened
parameter array contains a NaN computes the NaN sentinel instead of applying
the statistic function; when `skip_nan_params` is unset the statistic
function is always applied; and every entry of the final `statistics` dict is
one of the per-iteration dict assignments. -/
theorem psx_skip_nan (cfg : PSConfig) (u : PSUnit) (hu : u ∈ psUnits cfg) :
    (cfg.skipNanParams = true → PFloat.nan ∈ u.arr →
      psUnitValue cfg u = StatResult.scalar PFloat.nan) ∧
    (cfg.skipNanParams = false → psUnitValue cfg u = u.fn u.arr) ∧
    (∀ kv ∈ psStatisticsDict cfg, kv ∈ psScalarUpdateList cfg) := by
  refine ⟨?_, ?_, ?_⟩
  · intro hs hn
    unfold psUnitValue psValue
    rw [if_pos ⟨hs, hn⟩]
  · intro hs
    unfold psUnitValue psValue
    rw [if_neg (by simp [hs])]
  · intro kv hkv
    rcases foldl_dictSet_mem (psScalarUpdateList cfg) [] kv hkv with h | h
    · simp at h
    · exact h

/-- Concrete configuration for the C6 witness: one link, one parameter whose
data contains a NaN, one statistic, `skip_nan_params=True`. -/
def nanCfg : PSConfig :=
  { links := [{ name := "l", params := [{ name := "/W", data := [PFloat.nan], grad := [] }] }],
    statistics := [("mean", fun _ => StatResult.scalar (PFloat.val 0))],
    reportParams := true, reportGrads := false, pfx := none,
    histogram := true, skipNanParams := true }

/-- The single loop iteration of `nanCfg`. -/
def nanUnit : PSUnit :=
  { linkName := "l", paramName := "/W", arr := [PFloat.nan], attrName := "data",
    fnName := "mean", fn := fun _ => StatResult.scalar (PFloat.val 0) }

/-- Witness for C6: the NaN parameter is reported as the NaN sentinel. -/
theorem psx_skip_nan_witness :
    psUnitValue nanCfg nanUnit = StatResult.scalar PFloat.nan :=
  (psx_skip_nan nanCfg nanUnit
    (by rw [show psUnits nanCfg = [nanUnit] from rfl]; exact List.mem_singleton.mpr rfl)).1
    rfl (by decide)

theorem psScalarUpdates_key (key : String) (value : StatResult) (kv : String × StatResult)
    (h : kv ∈ psScalarUpdates key value) :
    kv.1 = key ∨ ∃ i : Nat, kv.1 = key ++ "/" ++ toString i := by
  unfold psScalarUpdates at h
  rcases value with v | vs
  · exact Or.inl (congrArg Prod.fst (List.mem_singleton.mp h))
  · simp only at h
    split at h
    · obtain ⟨iv, hiv, hiveq⟩ := List.mem_map.mp h
      exact Or.inr ⟨iv.1, by rw [← hiveq]⟩
    · exact Or.inl (congrArg Prod.fst (List.mem_singleton.mp h))

/-- Amended C7: every scalar pushed to the backend is keyed either by the
templated string (optional truthy prefix plus `/`, link name, parameter name,
`/`, attribute name, `/`, statistic function name) or, when the statistic
function returned an array of more than one element, by that templated string
with `/` and the element index appended; every histogram is keyed by the same
template without the statistic function name; and every scalar and histogram
push is indexed by the trainer's current iteration number. -/
theorem psx_report_keys (cfg : PSConfig) (iteration : Nat) :
    (∀ p ∈ (psRun cfg iteration).scalars,
      p.2.2 = iteration ∧
      ∃ u ∈ psUnits cfg,
        p.1 = psUnitKey cfg u ∨ ∃ i : Nat, p.1 = psUnitKey cfg u ++ "/" ++ toString i) ∧
    (∀ hrec ∈ (psRun cfg iteration).histograms,
      hrec.2.2 = iteration ∧ ∃ u ∈ psUnits cfg, hrec.1 = psUnitHistKey cfg u) := by
  constructor
  · intro p hp
    obtain ⟨kv, hkv, hpe⟩ := List.mem_map.mp hp
    refine ⟨by rw [← hpe], ?_⟩
    have hup : kv ∈ psScalarUpdateList cfg := by
      rcases foldl_dictSet_mem (psScalarUpdateList cfg) [] kv hkv with h | h
      · simp at h
      · exact h
    obtain ⟨u, hu, hmem⟩ := List.mem_flatMap.mp hup
    refine ⟨u, hu, ?_⟩
    have hk := psScalarUpdates_key (psUnitKey cfg u) (psUnitValue cfg u) kv hmem
    rw [← hpe]
    exact hk
  · intro hrec hh
    unfold psRun at hh
    simp only at hh
    split at hh
    · obtain ⟨u, hu, hue⟩ := List.mem_map.mp hh
      exact ⟨by rw [← hue], u, hu, by rw [← hue]⟩
    · simp at hh

/-- One parameter whose data array has two elements, for the C7
counterexample. -/
def twoValParam : PSParamEntry :=
  { name := "/W", data := [PFloat.val 1, PFloat.val 2], grad := [] }

/-- Concrete configuration for the C7 counterexample: a statistic function
returning a two-element array. -/
def arrStatCfg : PSConfig :=
  { links := [{ name := "l", params := [twoValParam] }],
    statistics := [("s2", fun l => StatResult.array l)],
    reportParams := true, reportGrads := false, pfx := none,
    histogram := false, skipNanParams := false }

/-- Counterexample to C7 as stated: with a multi-valued statistic function
the pushed scalar keys carry an appended element index and none of them
equals the templated key of the iteration that produced them. -/
theorem psx_scalar_key_counterexample :
    ((psRun arrStatCfg 5).scalars.map (fun p => p.1) = ["l/W/data/s2/0", "l/W/data/s2/1"]) ∧
    ((psUnits arrStatCfg).map (psUnitKey arrStatCfg) = ["l/W/data/s2"]) ∧
    (∀ p ∈ (psRun arrStatCfg 5).scalars, ∀ u ∈ psUnits arrStatCfg,
      p.1 ≠ psUnitKey arrStatCfg u) := by
  refine ⟨by decide, by decide, by decide⟩

/-- Witness for the amended C7 theorem at a concrete input. -/
theorem psx_report_keys_witness :
    ("l/W/data/mean", StatResult.scalar PFloat.nan, 3).2.2 = 3 ∧
    ∃ u ∈ psUnits nanCfg,
      ("l/W/data/mean", StatResult.scalar PFloat.nan, 3).1 = psUnitKey nanCfg u ∨
      ∃ i : Nat,
        ("l/W/data/mean", StatResult.scalar PFloat.nan, 3).1
          = psUnitKey nanCfg u ++ "/" ++ toString i :=
  (psx_report_keys nanCfg 3).1 ("l/W/data/mean", StatResult.scalar PFloat.nan, 3)
    (by decide)

/-! Model of the `graphviz_dot` extension (src/extensions/graphviz_dot.py).
The external renderer invocation (`subprocess.call` of the `dot` binary) is
modelled as a fallible external action: an oracle says, per input file,
whether the invocation raises (as it does when the rendering toolchain is
missing or unusable).  The `try` block wraps the whole loop; a bare `except`
catches any exception, issues the warning, and returns normally. -/

/-- Model of the closure `trigger` (lines 10-11):
`trainer.updater.iteration == 1`. -/
def gvTrigger (iteration : Nat) : Bool := iteration == 1

/-- The index of the last occurrence of `c`, as Python `str.rfind` (without
the minus-one encoding for absence). -/
def rfindAux (c : Char) : List Char → Option Nat
  | [] => none
  | x :: xs =>
    match rfindAux c xs with
    | some j => some (j + 1)
    | none => if x = c then some 0 else none

/-- Model of the root part of `os.path.splitext` for POSIX paths: split at
the last dot after the last slash, unless every character between the slash
and that dot is itself a dot (hidden files keep their name whole). -/
def splitextRoot (p : List Char) : List Char :=
  let sepIndex : Int := match rfindAux '/' p with | some n => (n : Int) | none => -1
  let dotIndex : Int := match rfindAux '.' p with | some n => (n : Int) | none => -1
  if sepIndex < dotIndex then
    let start := (sepIndex + 1).toNat
    let dotN := dotIndex.toNat
    if ((p.drop start).take (dotN - start)).any (fun ch => ch != '.') then
      p.take dotN
    else p
  else p

/-- The observable outcome of one run of the extension body. -/
structure GvResult where
  calls : List (List Char × List Char)
  warned : Bool
  raised : Bool
deriving DecidableEq, Repr

/-- The loop over the matched files (lines 22-28): each iteration computes
the output name by replacing the extension with `.png` and invokes the
renderer; the first raising invocation is caught by the bare `except`, which
warns and ends the call without re-raising. -/
def gvLoop (fails : List Char → Bool) :
    List (List Char) → List (List Char × List Char) → GvResult
  | [], acc => { calls := acc, warned := false, raised := false }
  | f :: rest, acc =>
    if fails f then { calls := acc, warned := true, raised := false }
    else gvLoop fails rest (acc ++ [(f, splitextRoot f ++ ".png".data)])

/-- Model of one invocation of the `graphviz_dot` extension body on the
matched file list. -/
def gvRun (files : List (List Char)) (fails : List Char → Bool) : GvResult :=
  gvLoop fails files []

theorem gvLoop_char (fails : List Char → Bool) :
    ∀ (files : List (List Char)) (acc : List (List Char × List Char)),
      (gvLoop fails files acc).raised = false ∧
      ((gvLoop fails files acc).warned = true ↔ ∃ f ∈ files, fails f = true) ∧
      ((∀ f ∈ files, fails f = false) →
        (gvLoop fails files acc).calls
          = acc ++ files.map (fun f => (f, splitextRoot f ++ ".png".data))) := by
  intro files
  induction files with
  | nil => intro acc; simp [gvLoop]
  | cons f rest ih =>
    intro acc
    cases hf : fails f with
    | true =>
      refine ⟨by simp [gvLoop, hf], ?_, ?_⟩
      · simp [gvLoop, hf]
      · intro hall
        exact absurd (hall f (List.mem_cons_self f rest)) (by simp [hf])
    | false =>
      obtain ⟨h1, h2, h3⟩ := ih (acc ++ [(f, splitextRoot f ++ ".png".data)])
      refine ⟨by simpa [gvLoop, hf] using h1, ?_, ?_⟩
      · rw [show gvLoop fails (f :: rest) acc
          = gvLoop fails rest (acc ++ [(f, splitextRoot f ++ ".png".data)]) from by
            simp [gvLoop, hf]]
        rw [h2]
        constructor
        · intro ⟨g, hg, hgf⟩; exact ⟨g, List.mem_cons_of_mem f hg, hgf⟩
        · intro ⟨g, hg, hgf⟩
          rcases List.mem_cons.mp hg with rfl | hg2
          · exact absurd hgf (by simp [hf])
          · exact ⟨g, hg2, hgf⟩
      · intro hall
        rw [show gvLoop fails (f :: rest) acc
          = gvLoop fails rest (acc ++ [(f, splitextRoot f ++ ".png".data)]) from by
            simp [gvLoop, hf]]
        rw [h3 (fun g hg => hall g (List.mem_cons_of_mem f hg))]
        simp

/-- C4: whatever the matched files are and however the external renderer
invocations fail, no exception escapes the extension body, and the warning is
issued exactly when some invocation failed (in particular whenever the
rendering binary is missing, in which case every invocation fails). -/
theorem graphviz_failure_nonfatal (files : List (List Char)) (fails : List Char → Bool) :
    (gvRun files fails).raised = false ∧
    ((gvRun files fails).warned = true ↔ ∃ f ∈ files, fails f = true) :=
  ⟨(gvLoop_char fails files []).1, (gvLoop_char fails files []).2.1⟩

/-- C10: the extension trigger fires exactly at iteration 1, and when the
renderer invocations succeed, the renderer is invoked once per matched file
with the output name obtained by replacing the input extension with
`.png`. -/
theorem graphviz_trigger_and_outputs (iteration : Nat) (files : List (List Char))
    (fails : List Char → Bool) (hok : ∀ f ∈ files, fails f = false) :
    (gvTrigger iteration = true ↔ iteration = 1) ∧
    (gvRun files fails).calls = files.map (fun f => (f, splitextRoot f ++ ".png".data)) := by
  constructor
  · simp [gvTrigger]
  · have h := (gvLoop_char fails files []).2.2 hok
    rw [show (gvRun files fails).calls = (gvLoop fails files []).calls from rfl, h]
    simp

/-- Witness for C10 at a concrete input: one `graph.dot` file, renderer
available. -/
theorem graphviz_trigger_and_outputs_witness :
    (gvTrigger 1 = true ↔ (1 : Nat) = 1) ∧
    (gvRun ["graph.dot".data] (fun _ => false)).calls
      = ["graph.dot".data].map (fun f => (f, splitextRoot f ++ ".png".data)) :=
  graphviz_trigger_and_outputs 1 ["graph.dot".data] (fun _ => false) (by decide)

/-! Model of `LogReport.serialize` in deserialization mode
(src/extensions/log_report.py, lines 181-198).  The serializer is modelled by
the snapshot it reads: whether a `_summary` entry exists (indexing a missing
entry raises `KeyError`), the stored summary, and the decoded `_log` list. -/

/-- The snapshot a deserializer presents to `LogReport.serialize`. -/
structure SerializerSnapshot where
  hasSummary : Bool
  storedSummary : DictSummary
  storedLog : List (List (String × ℚ))
deriving DecidableEq, Repr

/-- Model of the deserialization path of `LogReport.serialize`: restoring the
summary is attempted inside `try`; a `KeyError` (missing entry) is caught,
the warning `The statistics are not saved.` is issued and the old summary is
kept; then `_log` is restored regardless.  The result is the new summary, the
new log, and the warnings issued. -/
def lrDeserialize (summary : DictSummary) (sz : SerializerSnapshot) :
    DictSummary × List (List (String × ℚ)) × List String :=
  let restored :=
    if sz.hasSummary then (sz.storedSummary, ([] : List String))
    else (summary, ["The statistics are not saved."])
  (restored.1, sz.storedLog, restored.2)

/-- C5: when the serialized summary is missing, deserialization warns, keeps
the summary it already had instead of raising, and still restores the rest
(the log). -/
theorem logReport_deserialize_missing_summary (summary : DictSummary)
    (sz : SerializerSnapshot) (h : sz.hasSummary = false) :
    lrDeserialize summary sz = (summary, sz.storedLog, ["The statistics are not saved."]) := by
  simp [lrDeserialize, h]

/-- Witness for C5 at a concrete input. -/
theorem logReport_deserialize_missing_summary_witness :
    lrDeserialize DictSummary.empty
      { hasSummary := false, storedSummary := DictSummary.empty, storedLog := [] }
      = (DictSummary.empty, [], ["The statistics are not saved."]) :=
  logReport_deserialize_missing_summary DictSummary.empty
    { hasSummary := false, storedSummary := DictSummary.empty, storedLog := [] } rfl

/-! State carried between calls by the other two extensions.  The
`graphviz_dot` body closes over the single read-only variable `_file_name`;
`ParameterStatisticsX.__call__` reads the attributes set by `__init__` and
assigns none of them.  Both are modelled as explicit state threaded through a
sequence of invocations, so that statelessness is a theorem about the run,
not a convention.  (Their trigger and writer collaborators are external
chainer/tensorboardX objects, outside these extensions' own state.) -/

/-- The closure state of one `graphviz_dot` extension instance: the
`_file_name` pattern captured at construction. -/
structure GvClosure where
  fileName : List Char

/-- The per-call external inputs of the `graphviz_dot` body: `trainer.out`,
the filesystem's answer to `glob.glob` for the joined pattern, and the
failure behaviour of the renderer invocations. -/
structure GvCallInput where
  out : List Char
  glob : List Char → List (List Char)
  fails : List Char → Bool

/-- One invocation of the `graphviz_dot` body: glob the pattern joined under
`trainer.out`, run the render loop, and return the closure state it leaves
behind (the body assigns no closed-over variable). -/
def gvCall (cl : GvClosure) (inp : GvCallInput) : GvResult × GvClosure :=
  (gvRun (inp.glob (pathJoin inp.out cl.fileName)) inp.fails, cl)

/-- A sequence of `graphviz_dot` invocations threading the closure state. -/
def gvCallSeq (cl : GvClosure) : List GvCallInput → List GvResult × GvClosure
  | [] => ([], cl)
  | inp :: rest =>
    let r := gvCall cl inp
    let rs := gvCallSeq r.2 rest
    (r.1 :: rs.1, rs.2)

/-- One invocation of `ParameterStatisticsX.__call__` whose trigger fired:
the pushes of `psRun`, and the attribute state it leaves behind (the body
assigns no attribute of `self`). -/
def psCall (cfg : PSConfig) (iteration : Nat) : PSOutput × PSConfig :=
  (psRun cfg iteration, cfg)

/-- A sequence of fired `ParameterStatisticsX` invocations threading the
attribute state. -/
def psCallSeq (cfg : PSConfig) : List Nat → List PSOutput × PSConfig
  | [] => ([], cfg)
  | it :: rest =>
    let r := psCall cfg it
    let rs := psCallSeq r.2 rest
    (r.1 :: rs.1, rs.2)

theorem gvCallSeq_stateless (cl : GvClosure) :
    ∀ inps : List GvCallInput,
      gvCallSeq cl inps = (inps.map (fun inp => (gvCall cl inp).1), cl) := by
  intro inps
  induction inps with
  | nil => rfl
  | cons inp rest ih => simp [gvCallSeq, gvCall, ih]

theorem psCallSeq_stateless (cfg : PSConfig) :
    ∀ its : List Nat, psCallSeq cfg its = (its.map (fun it => (psCall cfg it).1), cfg) := by
  intro its
  induction its with
  | nil => rfl
  | cons it rest ih => simp [psCallSeq, psCall, ih]

/-- Amended C8: `graphviz_dot` and `ParameterStatisticsX` are stateless
between calls: over any sequence of invocations the closure state and the
attribute state come out unchanged, and every invocation's output is a
function of that call's own inputs and the original state, unaffected by
earlier invocations.  LogReport is not stateless between calls: a call on
which the emit trigger does not fire still mutates the instance, adding the
call's observation to the accumulated summary, though it changes nothing
else (and a first call additionally sets the initialization flag and key
list). -/
theorem extensions_between_calls_state (s : LogReportState) (tr : Trainer)
    (hinit : s.isInit = true) (hemit : tr.emit = false) :
    logReportCall s tr = { s with summary := lrAccum s.keys s.summary tr.observation } ∧
    (∀ (cl : GvClosure) (inps : List GvCallInput),
      gvCallSeq cl inps = (inps.map (fun inp => (gvCall cl inp).1), cl)) ∧
    (∀ (cfg : PSConfig) (its : List Nat),
      psCallSeq cfg its = (its.map (fun it => (psCall cfg it).1), cfg)) :=
  ⟨logReport_non_emit_frame s tr hinit hemit,
    fun cl inps => gvCallSeq_stateless cl inps,
    fun cfg its => psCallSeq_stateless cfg its⟩

/-- Witness for the amended C8 theorem at a concrete input. -/
theorem extensions_between_calls_state_witness :
    logReportCall nonEmitState nonEmitTrainer
      = { nonEmitState with
          summary := lrAccum nonEmitState.keys nonEmitState.summary
            nonEmitTrainer.observation } :=
  (extensions_between_calls_state nonEmitState nonEmitTrainer rfl rfl).1

end ChainerExt
